import Mathlib

/-!
Verification of the training orchestration and checkpoint-lifecycle subsystem
of CLIP-Image-Captioning (`train.py`), as a shallow embedding in Lean 4.

The embedding mirrors the source:
* `CheckpointSaver` and its `on_epoch_end` / `on_batch_end` / `save_final_checkpoint`
  handlers (train.py lines 12-37); Python's `%` raises `ZeroDivisionError` on a
  zero divisor, which we model with `Except Unit`; for a nonzero divisor,
  Python's `a % m == 0` agrees with Lean's `Int.emod a m = 0` (both say `m ∣ a`).
* the dataset-preparation block of `train` (lines 68-85), `total_steps`
  derivation (line 88), the gpu-device rewrite (lines 111-113) and the
  dataloader construction (line 126).
* `dataset.py` (`TokenPrefixDataset`, `MultiplePrefixDataset`) is not among the
  sources; the corresponding definitions are modelled from the spec and say so
  in their doc comments.
-/

namespace CLIPTrain

/-! ### Decimal rendering: `Nat.repr` is injective

`Nat.repr n = (Nat.toDigits 10 n).asString`, where `Nat.toDigitsCore` is
fuel-indexed.  We give a fuel-free description `decChars` and show the fuel is
irrelevant once it exceeds `n`, then read the number back from its digits. -/

/-- The characters produced by `Nat.toDigits 10`, fuel-free: base-10 digits of
`n`, most significant first. -/
def decChars (n : Nat) : List Char :=
  if h : n / 10 = 0 then [Nat.digitChar (n % 10)]
  else decChars (n / 10) ++ [Nat.digitChar (n % 10)]
  termination_by n
  decreasing_by simp_wf; omega

theorem decChars_of_lt {n : Nat} (h : n / 10 = 0) :
    decChars n = [Nat.digitChar (n % 10)] := by
  rw [decChars, dif_pos h]

theorem decChars_of_ge {n : Nat} (h : ¬ n / 10 = 0) :
    decChars n = decChars (n / 10) ++ [Nat.digitChar (n % 10)] := by
  rw [decChars, dif_neg h]

theorem toDigitsCore_eq_decChars :
    ∀ (n : Nat), ∀ (f : Nat) (ds : List Char), n < f →
      Nat.toDigitsCore 10 f n ds = decChars n ++ ds := by
  intro n
  induction n using Nat.strong_induction_on with
  | _ n ih =>
    intro f ds hf
    match f, hf with
    | g + 1, hf =>
      by_cases h : n / 10 = 0
      · simp [Nat.toDigitsCore, h, decChars_of_lt h]
      · rw [show Nat.toDigitsCore 10 (g + 1) n ds
            = Nat.toDigitsCore 10 g (n / 10) (Nat.digitChar (n % 10) :: ds) by
              simp [Nat.toDigitsCore, h]]
        have hlt : n / 10 < n := Nat.div_lt_self (by omega) (by omega)
        rw [ih (n / 10) hlt g _ (by omega), decChars_of_ge h]
        simp

theorem toDigits_eq_decChars (n : Nat) : Nat.toDigits 10 n = decChars n := by
  have := toDigitsCore_eq_decChars n (n + 1) [] (Nat.lt_succ_self n)
  simpa [Nat.toDigits] using this

/-- Reads a decimal-digit character list back into the number it denotes. -/
def charsVal (l : List Char) : Nat :=
  l.foldl (fun a c => 10 * a + (c.toNat - 48)) 0

theorem digitChar_val {d : Nat} (h : d < 10) : (Nat.digitChar d).toNat - 48 = d := by
  interval_cases d <;> rfl

theorem charsVal_append_digit (l : List Char) (c : Char) :
    charsVal (l ++ [c]) = 10 * charsVal l + (c.toNat - 48) := by
  simp [charsVal, List.foldl_append]

theorem charsVal_decChars : ∀ n, charsVal (decChars n) = n := by
  intro n
  induction n using Nat.strong_induction_on with
  | _ n ih =>
    by_cases h : n / 10 = 0
    · have hn : n < 10 := by omega
      rw [decChars_of_lt h]
      simpa [charsVal, digitChar_val (Nat.mod_lt n (by omega))] using Nat.mod_eq_of_lt hn
    · have hlt : n / 10 < n := Nat.div_lt_self (by omega) (by omega)
      rw [decChars_of_ge h, charsVal_append_digit, ih (n / 10) hlt,
        digitChar_val (Nat.mod_lt n (by omega))]
      omega

theorem natRepr_injective : Function.Injective Nat.repr := by
  intro m n h
  have hdata : Nat.toDigits 10 m = Nat.toDigits 10 n := by
    have := congrArg String.data h
    simpa [Nat.repr, List.asString] using this
  have := congrArg charsVal hdata
  rwa [toDigits_eq_decChars, toDigits_eq_decChars, charsVal_decChars,
    charsVal_decChars] at this

/-! ### `CheckpointSaver` (train.py lines 12-37)

The constructor stores its configuration unchecked (`output_path.mkdir` is
filesystem I/O that does not affect the stored state).  `fnameStem` embeds the
`filename_prefix` attribute.  Cadences are Python ints, modelled as `Int`; the
event counters delivered by the trainer (`current_epoch`, `global_step`) are
non-negative, modelled as `Nat`.  A handler whose modulo test divides by zero
raises `ZeroDivisionError`, modelled as `Except.error ()`; a write is
`Except.ok (some name)`, a skipped event `Except.ok none`. -/

structure CheckpointSaver where
  outputPath : String
  fnameStem : String
  saveEveryNEpochs : Int
  saveEveryNSteps : Option Int

/-- `self.output_path / f"{self.filename_prefix}_epoch_{epoch}.ckpt"`. -/
def CheckpointSaver.epochCkptName (c : CheckpointSaver) (epoch : Nat) : String :=
  c.outputPath ++ "/" ++ c.fnameStem ++ "_epoch_" ++ Nat.repr epoch ++ ".ckpt"

/-- `self.output_path / f"{self.filename_prefix}_latest.ckpt"`. -/
def CheckpointSaver.latestCkptName (c : CheckpointSaver) : String :=
  c.outputPath ++ "/" ++ c.fnameStem ++ "_latest.ckpt"

/-- `self.output_path / f"{self.filename_prefix}_final.ckpt"`. -/
def CheckpointSaver.finalCkptName (c : CheckpointSaver) : String :=
  c.outputPath ++ "/" ++ c.fnameStem ++ "_final.ckpt"

/-- `on_epoch_end` (train.py lines 22-26): checkpoint iff
`epoch % save_every_n_epochs == 0`; the `%` raises on a zero cadence. -/
def CheckpointSaver.onEpochEnd (c : CheckpointSaver) (epoch : Nat) :
    Except Unit (Option String) :=
  if c.saveEveryNEpochs = 0 then .error ()
  else if (epoch : Int) % c.saveEveryNEpochs = 0 then .ok (some (c.epochCkptName epoch))
  else .ok none

/-- `on_batch_end` (train.py lines 28-33): nothing when `save_every_n_steps` is
`None`; otherwise write the rolling latest snapshot iff
`global_step % save_every_n_steps == 0`. -/
def CheckpointSaver.onBatchEnd (c : CheckpointSaver) (step : Nat) :
    Except Unit (Option String) :=
  match c.saveEveryNSteps with
  | none => .ok none
  | some ns =>
    if ns = 0 then .error ()
    else if (step : Int) % ns = 0 then .ok (some c.latestCkptName)
    else .ok none

/-- `save_final_checkpoint` (train.py lines 35-37): one unconditional write. -/
def CheckpointSaver.saveFinalCheckpoint (c : CheckpointSaver) : String :=
  c.finalCkptName

/-! ### Filenames are pairwise compatible with the claims -/

theorem string_append_cancel_left {s t u : String} (h : s ++ t = s ++ u) : t = u := by
  have hd := congrArg String.data h
  simp only [String.data_append] at hd
  exact String.ext (List.append_cancel_left hd)

theorem epochCkptName_inj (c : CheckpointSaver) {e e' : Nat}
    (h : c.epochCkptName e = c.epochCkptName e') : e = e' := by
  unfold CheckpointSaver.epochCkptName at h
  have hd := congrArg String.data h
  simp only [String.data_append, List.append_assoc] at hd
  have h1 := List.append_cancel_left hd
  have h2 := List.append_cancel_left h1
  have h3 := List.append_cancel_left h2
  have h4 := List.append_cancel_left h3
  have h5 : (Nat.repr e).data = (Nat.repr e').data := List.append_cancel_right h4
  exact natRepr_injective (String.ext h5)

theorem epochCkptName_ne_finalCkptName (c : CheckpointSaver) (e : Nat) :
    c.epochCkptName e ≠ c.finalCkptName := by
  intro h
  unfold CheckpointSaver.epochCkptName CheckpointSaver.finalCkptName at h
  have hd := congrArg String.data h
  simp only [String.data_append, List.append_assoc] at hd
  have h1 := List.append_cancel_left (List.append_cancel_left hd)
  have h2 := List.append_cancel_left h1
  simp at h2

theorem latestCkptName_ne_finalCkptName (c : CheckpointSaver) :
    c.latestCkptName ≠ c.finalCkptName := by
  intro h
  unfold CheckpointSaver.latestCkptName CheckpointSaver.finalCkptName at h
  have hd := congrArg String.data h
  simp only [String.data_append, List.append_assoc] at hd
  have h1 := List.append_cancel_left (List.append_cancel_left hd)
  have h2 := List.append_cancel_left h1
  simp at h2

/-! ### Datasets (train.py lines 68-85; member classes from the spec) -/

/-- Modelled from the spec: `TokenPrefixDataset` lives in `dataset.py`, which is
not among the sources.  The spec describes it as one source directory's
collection of (visual-prefix-embedding, token-sequence) pairs with an item
count, immutable once loaded.  `size` is that item count; the batch-size and
normalization options do not affect composition and are omitted. -/
structure TokenPrefixDataset where
  dir : String
  size : Nat

/-- Modelled from the spec: loading a `TokenPrefixDataset` from a directory;
the environment `env` gives the item count found in each directory. -/
def loadTokenPrefixDataset (env : String → Nat) (dir : String) : TokenPrefixDataset :=
  ⟨dir, env dir⟩

/-- Modelled from the spec: `MultiplePrefixDataset` (dataset.py, not among the
sources) is an ordered concatenation of member datasets. -/
structure MultiplePrefixDataset where
  members : List TokenPrefixDataset

/-- Modelled from the spec: the composite length is the sum of the member
lengths. -/
def MultiplePrefixDataset.length (d : MultiplePrefixDataset) : Nat :=
  (d.members.map (fun m => m.size)).sum

/-- Modelled from the spec: resolution of a global index against the members'
cumulative-length boundaries (linear search over member lengths), returning the
owning member's position and the local offset inside it. -/
def resolveIndex : List Nat → Nat → Option (Nat × Nat)
  | [], _ => none
  | l :: ls, i =>
    if i < l then some (0, i)
    else (resolveIndex ls (i - l)).map fun p => (p.1 + 1, p.2)

/-- The dataset produced by the preparation block of `train`: a single
`TokenPrefixDataset` or a merged `MultiplePrefixDataset`. -/
inductive Dataset where
  | single (d : TokenPrefixDataset)
  | merged (d : MultiplePrefixDataset)

def Dataset.length : Dataset → Nat
  | .single d => d.size
  | .merged d => d.length

/-- Splitting a character list at every comma, Python's `str.split(",")`:
`"" ↦ [""]`, `"a" ↦ ["a"]`, `"a,b" ↦ ["a", "b"]`, `"a,,b" ↦ ["a", "", "b"]`. -/
def splitChars : List Char → List (List Char)
  | [] => [[]]
  | c :: cs =>
    match splitChars cs, decide (c = ',') with
    | rest, true => [] :: rest
    | [], false => [[c]]
    | r :: rs, false => (c :: r) :: rs

/-- Python's `data_dir.split(",")` on a `String`. -/
def pySplitComma (s : String) : List String :=
  (splitChars s.data).map List.asString

/-- The dataset-preparation block of `train` (train.py lines 68-85): in merge
mode, split `data_dir` on commas, raise `ValueError` when fewer than two
directories result, otherwise load one member per directory and merge; without
merge mode, load the single directory. -/
def prepareDataset (env : String → Nat) (mergeDatasets : Bool) (dataDir : String) :
    Except String Dataset :=
  if mergeDatasets then
    let dataDirs := pySplitComma dataDir
    if dataDirs.length < 2 then
      .error ("--merge_datasets was enabled, but less than 2 directories were specified.\n"
        ++ "You can specify more than one data directory by comma seperating the --data_dir input.")
    else
      .ok (.merged ⟨dataDirs.map (loadTokenPrefixDataset env)⟩)
  else
    .ok (.single (loadTokenPrefixDataset env dataDir))

/-- `total_steps = len(dataset) * epochs` (train.py line 88), reached only when
dataset preparation succeeded. -/
def totalSteps (env : String → Nat) (mergeDatasets : Bool) (dataDir : String)
    (epochs : Nat) : Except String Nat := do
  let d ← prepareDataset env mergeDatasets dataDir
  pure (d.length * epochs)

/-! ### Device-selection rewrite (train.py lines 111-113) -/

/-- The shapes a Python `gpu_devices` value can take on the call path: an int,
a list of ints, a string, or `None`. -/
inductive GpuDevices where
  | int (n : Int)
  | list (ns : List Int)
  | str (s : String)
  | null
deriving DecidableEq

/-- The whole device-selection logic of `train` (train.py lines 111-113):
`if isinstance(gpu_devices, int) and gpu_devices != -1: gpu_devices = [gpu_devices]`.
Every other value flows to the external engine unchanged. -/
def resolveGpuDevices : GpuDevices → GpuDevices
  | .int n => if n ≠ -1 then .list [n] else .int n
  | g => g

/-! ### Dataloader construction (train.py line 126) -/

structure DataLoaderConfig where
  batchSize : Nat
  shuffle : Bool

/-- `DataLoader(dataset, batch_size=1, shuffle=False)` (train.py line 126). -/
def trainDataLoaderConfig : DataLoaderConfig :=
  { batchSize := 1, shuffle := false }

/-- Modelled from the external loader's documented contract: with
`shuffle = False` the sampler is sequential, visiting dataset indices
`0, 1, …, n-1` in order; with shuffling the order is a random permutation and
is not modelled. -/
def loaderIndexOrder (cfg : DataLoaderConfig) (n : Nat) : Option (List Nat) :=
  if cfg.shuffle then none else some (List.range n)

/-- Grouping of an index stream into batches of `k` (with `k = 0` treated as
batches of one, the loader's minimum). -/
def chunkList (k : Nat) : List Nat → List (List Nat)
  | [] => []
  | x :: xs => (x :: xs.take (k - 1)) :: chunkList k (xs.drop (k - 1))
  termination_by l => l.length
  decreasing_by simp_wf; omega

/-- The batch stream the dataloader hands to the external engine. -/
def loaderBatches (cfg : DataLoaderConfig) (n : Nat) : Option (List (List Nat)) :=
  (loaderIndexOrder cfg n).map (chunkList cfg.batchSize)

/-- The in-order traversal of a merged dataset's members: construction order of
the members, and within each member its local order. -/
def memberOrder : List Nat → List (Nat × Nat)
  | [] => []
  | l :: ls =>
    (List.range l).map (fun j => (0, j)) ++ (memberOrder ls).map (fun p => (p.1 + 1, p.2))

/-! ### Event traces

The external engine delivers batch-end events (one per batch, `global_step`
advancing by one) and an epoch-end event per epoch, and `train` invokes
`save_final_checkpoint` once after `trainer.fit` returns (train.py lines
138-141).  The traces below collect the written filenames in order; a
`ZeroDivisionError` in a handler aborts the run, propagating as `.error`. -/

/-- Batch-end events for a list of global steps, collecting the writes. -/
def CheckpointSaver.batchWrites (c : CheckpointSaver) : List Nat → Except Unit (List String)
  | [] => .ok []
  | s :: ss => do
    let w ← c.onBatchEnd s
    let rest ← c.batchWrites ss
    pure (w.toList ++ rest)

/-- One epoch of the fit loop: `spe` batch-end events (global steps continue
across epochs), then the epoch-end event. -/
def CheckpointSaver.epochTrace (c : CheckpointSaver) (e spe : Nat) :
    Except Unit (List String) := do
  let bs ← c.batchWrites ((List.range spe).map (fun b => e * spe + b))
  let ew ← c.onEpochEnd e
  pure (bs ++ ew.toList)

/-- The writes `trainer.fit` causes over a list of epochs. -/
def CheckpointSaver.fitWritesAux (c : CheckpointSaver) (spe : Nat) :
    List Nat → Except Unit (List String)
  | [] => .ok []
  | e :: es => do
    let t ← c.epochTrace e spe
    let rest ← c.fitWritesAux spe es
    pure (t ++ rest)

def CheckpointSaver.fitWrites (c : CheckpointSaver) (epochs spe : Nat) :
    Except Unit (List String) :=
  c.fitWritesAux spe (List.range epochs)

/-- A completed run (train.py lines 138-141): the fit loop's writes followed by
the one explicit final save. -/
def CheckpointSaver.runWrites (c : CheckpointSaver) (epochs spe : Nat) :
    Except Unit (List String) := do
  let w ← c.fitWrites epochs spe
  pure (w ++ [c.saveFinalCheckpoint])

/-- Which step's state the single `_latest.ckpt` file holds after a sequence of
batch-end events: each qualifying event overwrites the previous snapshot. -/
def CheckpointSaver.lastLatestWrite (c : CheckpointSaver) (steps : List Nat) : Option Nat :=
  steps.foldl (fun acc s =>
    match c.onBatchEnd s with
    | .ok (some _) => some s
    | _ => acc) none

/-! ### Helper lemmas: index resolution and sequential consumption -/

theorem resolveIndex_spec : ∀ (Ls : List Nat) (i : Nat), i < Ls.sum →
    ∃ m o, resolveIndex Ls i = some (m, o) ∧ m < Ls.length ∧ o < Ls.getD m 0 ∧
      (Ls.take m).sum + o = i := by
  intro Ls
  induction Ls with
  | nil => intro i hi; simp at hi
  | cons l ls ih =>
    intro i hi
    by_cases h : i < l
    · exact ⟨0, i, by simp [resolveIndex, h], by simp, by simpa using h, by simp⟩
    · have hi' : i - l < ls.sum := by
        simp only [List.sum_cons] at hi; omega
      obtain ⟨m, o, hres, hm, ho, hsum⟩ := ih (i - l) hi'
      refine ⟨m + 1, o, ?_, by simpa using hm, by simpa using ho, ?_⟩
      · simp [resolveIndex, h, hres]
      · simp only [List.take_succ_cons, List.sum_cons]
        omega

theorem resolveIndex_unique : ∀ (Ls : List Nat) (m o m' o' : Nat),
    o < Ls.getD m 0 → o' < Ls.getD m' 0 →
    (Ls.take m).sum + o = (Ls.take m').sum + o' → m = m' ∧ o = o' := by
  intro Ls
  induction Ls with
  | nil =>
    intro m o m' o' ho _ _
    simp at ho
  | cons l ls ih =>
    intro m o m' o' ho ho' hsum
    match m, m' with
    | 0, 0 =>
      simp only [List.take_zero, List.sum_nil, Nat.zero_add] at hsum
      exact ⟨rfl, hsum⟩
    | 0, mm + 1 =>
      simp only [List.getD_cons_zero] at ho
      simp only [List.take_succ_cons, List.sum_cons, List.take_zero, List.sum_nil] at hsum
      omega
    | mm + 1, 0 =>
      simp only [List.getD_cons_zero] at ho'
      simp only [List.take_succ_cons, List.sum_cons, List.take_zero, List.sum_nil] at hsum
      omega
    | mm + 1, mm' + 1 =>
      simp only [List.getD_cons_succ] at ho ho'
      simp only [List.take_succ_cons, List.sum_cons] at hsum
      obtain ⟨h1, h2⟩ := ih mm o mm' o' ho ho' (by omega)
      exact ⟨by omega, h2⟩

theorem resolveIndex_shifted (l : List Nat) (a i : Nat) :
    resolveIndex (a :: l) (a + i) = (resolveIndex l i).map fun p => (p.1 + 1, p.2) := by
  have h1 : ¬ a + i < a := by omega
  have h2 : a + i - a = i := by omega
  simp [resolveIndex, h1, h2]

theorem map_resolveIndex_range : ∀ Ls : List Nat,
    (List.range Ls.sum).map (resolveIndex Ls) = (memberOrder Ls).map some := by
  intro Ls
  induction Ls with
  | nil => simp [memberOrder]
  | cons l ls ih =>
    rw [List.sum_cons, List.range_add, List.map_append, memberOrder, List.map_append]
    congr 1
    · rw [List.map_map]
      refine List.map_congr_left fun i hi => ?_
      simp [resolveIndex, List.mem_range.mp hi]
    · rw [List.map_map, List.map_map]
      have hstep :
          (List.range ls.sum).map (resolveIndex (l :: ls) ∘ (l + ·))
            = (List.range ls.sum).map
                ((Option.map fun p : Nat × Nat => (p.1 + 1, p.2)) ∘ resolveIndex ls) := by
        refine List.map_congr_left fun i _ => ?_
        simpa using resolveIndex_shifted ls l i
      rw [hstep, ← List.map_map, ih, List.map_map]
      refine List.map_congr_left fun p _ => ?_
      simp

theorem chunkList_one : ∀ l : List Nat, chunkList 1 l = l.map fun i => [i] := by
  intro l
  induction l with
  | nil => rw [chunkList]; simp
  | cons x xs ih =>
    rw [chunkList]
    simpa using ih

/-! ### Helper lemmas: checkpoint traces -/

theorem onBatchEnd_some (c : CheckpointSaver) (k : Int) (hc : c.saveEveryNSteps = some k)
    (hk : k ≠ 0) (s : Nat) :
    c.onBatchEnd s = .ok (if (s : Int) % k = 0 then some c.latestCkptName else none) := by
  unfold CheckpointSaver.onBatchEnd
  rw [hc]
  by_cases h : (s : Int) % k = 0 <;> simp [hk, h]

theorem lastLatestWrite_append_one (c : CheckpointSaver) (l : List Nat) (x : Nat) :
    c.lastLatestWrite (l ++ [x])
      = match c.onBatchEnd x with
        | .ok (some _) => some x
        | _ => c.lastLatestWrite l := by
  unfold CheckpointSaver.lastLatestWrite
  rw [List.foldl_append]
  rfl

theorem lastLatestWrite_greatest (c : CheckpointSaver) (k : Int)
    (hc : c.saveEveryNSteps = some k) (hk : k ≠ 0) :
    ∀ steps : List Nat, steps.Pairwise (· ≤ ·) →
      ∀ s ∈ steps, (s : Int) % k = 0 →
        ∃ t, c.lastLatestWrite steps = some t ∧ s ≤ t ∧ (t : Int) % k = 0 ∧ t ∈ steps := by
  intro steps
  induction steps using List.reverseRecOn with
  | nil => intro _ s hs; simp at hs
  | append_singleton l x ih =>
    intro hp s hs hq
    obtain ⟨hpl, -, hlx⟩ := List.pairwise_append.mp hp
    rw [lastLatestWrite_append_one, onBatchEnd_some c k hc hk]
    by_cases hx : (x : Int) % k = 0
    · refine ⟨x, by simp [hx], ?_, hx, by simp⟩
      rcases List.mem_append.mp hs with hsl | hsx
      · exact hlx s hsl x (by simp)
      · simp only [List.mem_singleton] at hsx
        omega
    · have hsl : s ∈ l := by
        rcases List.mem_append.mp hs with hsl | hsx
        · exact hsl
        · simp only [List.mem_singleton] at hsx
          exact absurd (hsx ▸ hq) hx
      obtain ⟨t, ht, hst, htk, htl⟩ := ih hpl s hsl hq
      exact ⟨t, by simp [hx, ht], hst, htk, List.mem_append_left _ htl⟩

theorem exceptBind_ok {α β ε : Type} (a : α) (f : α → Except ε β) :
    (Except.ok a >>= f : Except ε β) = f a := rfl

theorem exceptMap_ok {α β ε : Type} (f : α → β) (a : α) :
    (f <$> (Except.ok a : Except ε α) : Except ε β) = .ok (f a) := rfl

theorem exceptPure {α ε : Type} (a : α) : (pure a : Except ε α) = .ok a := rfl

theorem batchWrites_ok (c : CheckpointSaver)
    (hns : c.saveEveryNSteps = none ∨ ∃ k, c.saveEveryNSteps = some k ∧ k ≠ 0) :
    ∀ ss : List Nat, ∃ ws, c.batchWrites ss = .ok ws ∧ ∀ w ∈ ws, w = c.latestCkptName := by
  intro ss
  induction ss with
  | nil => exact ⟨[], rfl, by simp⟩
  | cons s ss ih =>
    obtain ⟨ws, hws, hall⟩ := ih
    rcases hns with hn | ⟨k, hk, hk0⟩
    · refine ⟨ws, ?_, hall⟩
      simp [CheckpointSaver.batchWrites, CheckpointSaver.onBatchEnd, hn, hws,
        exceptBind_ok, exceptMap_ok]
    · by_cases h : (s : Int) % k = 0
      · refine ⟨c.latestCkptName :: ws, ?_, ?_⟩
        · simp [CheckpointSaver.batchWrites, onBatchEnd_some c k hk hk0, h, hws,
            exceptBind_ok, exceptMap_ok]
        · intro w hw
          rcases List.mem_cons.mp hw with h1 | h2
          · exact h1
          · exact hall w h2
      · refine ⟨ws, ?_, hall⟩
        simp [CheckpointSaver.batchWrites, onBatchEnd_some c k hk hk0, h, hws,
          exceptBind_ok, exceptMap_ok]

theorem onEpochEnd_ok (c : CheckpointSaver) (hne : c.saveEveryNEpochs ≠ 0) (e : Nat) :
    c.onEpochEnd e
      = .ok (if (e : Int) % c.saveEveryNEpochs = 0 then some (c.epochCkptName e) else none) := by
  unfold CheckpointSaver.onEpochEnd
  by_cases h : (e : Int) % c.saveEveryNEpochs = 0 <;> simp [hne, h]

theorem epochTrace_ok (c : CheckpointSaver) (hne : c.saveEveryNEpochs ≠ 0)
    (hns : c.saveEveryNSteps = none ∨ ∃ k, c.saveEveryNSteps = some k ∧ k ≠ 0)
    (e spe : Nat) :
    ∃ ws, c.epochTrace e spe = .ok ws ∧ ∀ w ∈ ws, w ≠ c.finalCkptName := by
  obtain ⟨bs, hbs, hall⟩ := batchWrites_ok c hns ((List.range spe).map fun b => e * spe + b)
  refine ⟨bs ++ (if (e : Int) % c.saveEveryNEpochs = 0
      then some (c.epochCkptName e) else none).toList, ?_, ?_⟩
  · simp only [CheckpointSaver.epochTrace, hbs, onEpochEnd_ok c hne e, exceptBind_ok,
      exceptMap_ok, exceptPure]
  · intro w hw
    rcases List.mem_append.mp hw with h1 | h2
    · exact (hall w h1) ▸ latestCkptName_ne_finalCkptName c
    · by_cases h : (e : Int) % c.saveEveryNEpochs = 0
      · simp only [h, if_pos, Option.toList_some, List.mem_singleton] at h2
        exact h2 ▸ epochCkptName_ne_finalCkptName c e
      · simp [h] at h2

theorem fitWritesAux_ok (c : CheckpointSaver) (hne : c.saveEveryNEpochs ≠ 0)
    (hns : c.saveEveryNSteps = none ∨ ∃ k, c.saveEveryNSteps = some k ∧ k ≠ 0) (spe : Nat) :
    ∀ es : List Nat, ∃ ws, c.fitWritesAux spe es = .ok ws ∧ ∀ w ∈ ws, w ≠ c.finalCkptName := by
  intro es
  induction es with
  | nil => exact ⟨[], rfl, by simp⟩
  | cons e es ih =>
    obtain ⟨ws, hws, hall⟩ := ih
    obtain ⟨t, ht, htall⟩ := epochTrace_ok c hne hns e spe
    refine ⟨t ++ ws, ?_, ?_⟩
    · simp [CheckpointSaver.fitWritesAux, ht, hws, exceptBind_ok, exceptMap_ok]
    · intro w hw
      rcases List.mem_append.mp hw with h1 | h2
      · exact htall w h1
      · exact hall w h2

/-! ### Claims -/

/-- C1 counterexample: the device-selection code of `train` (train.py lines
111-113) does not reject the string `"x"` with a `DeviceSpecificationError`
during orchestration setup; it passes the value through unchanged to the
external engine, contradicting the claim that for every input of any other
shape resolution fails rather than passing the value through. -/
theorem c1_counterexample : resolveGpuDevices (GpuDevices.str "x") = GpuDevices.str "x" :=
  rfl

/-- C1 (amended): device resolution is a total rewrite with no failure path: a
single integer other than `-1` (non-negative or not) becomes the one-element
selection; the sentinel `-1` is kept as-is (use all available devices); a
sequence of integers stays exactly that sequence; and every other shape (a
string such as `"x"`, or `None`) is passed through unchanged to the external
engine instead of being rejected. -/
theorem c1_device_resolution :
    (∀ n : Int, resolveGpuDevices (GpuDevices.int n)
        = if n = -1 then GpuDevices.int n else GpuDevices.list [n])
    ∧ (∀ ns : List Int, resolveGpuDevices (GpuDevices.list ns) = GpuDevices.list ns)
    ∧ (∀ s : String, resolveGpuDevices (GpuDevices.str s) = GpuDevices.str s)
    ∧ resolveGpuDevices GpuDevices.null = GpuDevices.null := by
  refine ⟨fun n => ?_, fun ns => rfl, fun s => rfl, rfl⟩
  by_cases h : n = -1 <;> simp [resolveGpuDevices, h]

/-- C2: for every positive epoch cadence, the epoch-end handler writes iff
`epoch % cadence == 0`, each qualifying write goes to
`{prefix}_epoch_{E}.ckpt` keyed by the epoch, and distinct epochs always get
distinct filenames, so no epoch artifact is overwritten by a later epoch. -/
theorem c2_epoch_checkpoints (path stem : String) (ne : Int) (ns : Option Int)
    (hne : 0 < ne) :
    (∀ E : Nat, (CheckpointSaver.mk path stem ne ns).onEpochEnd E
        = .ok (if (E : Int) % ne = 0
            then some ((CheckpointSaver.mk path stem ne ns).epochCkptName E) else none))
    ∧ (∀ E : Nat, (CheckpointSaver.mk path stem ne ns).epochCkptName E
        = path ++ "/" ++ stem ++ "_epoch_" ++ Nat.repr E ++ ".ckpt")
    ∧ (∀ E E' : Nat, E ≠ E' →
        (CheckpointSaver.mk path stem ne ns).epochCkptName E
          ≠ (CheckpointSaver.mk path stem ne ns).epochCkptName E') := by
  refine ⟨fun E => onEpochEnd_ok _ (show ne ≠ 0 by omega) E, fun E => rfl,
    fun E E' hEE h => ?_⟩
  exact hEE (epochCkptName_inj _ h)

/-- C2 witness: cadence 1, epoch 2 produces the epoch-keyed artifact. -/
theorem c2_witness :
    (CheckpointSaver.mk "out" "model" 1 none).onEpochEnd 2
      = .ok (some "out/model_epoch_2.ckpt") :=
  ((c2_epoch_checkpoints "out" "model" 1 none (by decide)).1 2).trans rfl

/-- C3: with the step cadence unset no step-triggered write ever occurs; with a
positive cadence set, every batch-end event writes the one fixed latest
filename iff `step % cadence == 0`, and over any monotonically delivered event
sequence the latest artifact ends up holding the greatest qualifying step. -/
theorem c3_latest_snapshot (path stem : String) (ne k : Int) (hk : 0 < k) :
    (∀ S : Nat, (CheckpointSaver.mk path stem ne none).onBatchEnd S = .ok none)
    ∧ (∀ S : Nat, (CheckpointSaver.mk path stem ne (some k)).onBatchEnd S
        = .ok (if (S : Int) % k = 0
            then some ((CheckpointSaver.mk path stem ne (some k)).latestCkptName) else none))
    ∧ ((CheckpointSaver.mk path stem ne (some k)).latestCkptName
        = path ++ "/" ++ stem ++ "_latest.ckpt")
    ∧ (∀ steps : List Nat, steps.Pairwise (· ≤ ·) →
        ∀ S ∈ steps, (S : Int) % k = 0 →
          ∃ T, (CheckpointSaver.mk path stem ne (some k)).lastLatestWrite steps = some T
            ∧ S ≤ T ∧ (T : Int) % k = 0 ∧ T ∈ steps) := by
  refine ⟨fun S => rfl, fun S => onBatchEnd_some _ k rfl (show k ≠ 0 by omega) S, rfl, ?_⟩
  exact lastLatestWrite_greatest _ k rfl (show k ≠ 0 by omega)

/-- C3 witness: cadence 2 at step 4 overwrites the fixed latest filename. -/
theorem c3_witness :
    (CheckpointSaver.mk "out" "model" 1 (some 2)).onBatchEnd 4
      = .ok (some "out/model_latest.ckpt") :=
  ((c3_latest_snapshot "out" "model" 1 2 (by decide)).2.1 4).trans rfl

/-- C4: in merge mode, fewer than two comma-separated directory entries make
`train` raise the `ValueError` before any dataset is loaded or any model is
built; with two or more entries no error is raised and exactly one member
dataset is loaded per listed directory, in order. -/
theorem c4_merge_validation (env : String → Nat) (dataDir : String) :
    ((pySplitComma dataDir).length < 2 →
      prepareDataset env true dataDir
        = .error ("--merge_datasets was enabled, but less than 2 directories were specified.\n"
          ++ "You can specify more than one data directory by comma seperating the --data_dir input."))
    ∧ (2 ≤ (pySplitComma dataDir).length →
      ∃ ds : List TokenPrefixDataset,
        prepareDataset env true dataDir = .ok (.merged ⟨ds⟩)
        ∧ ds.map (fun d => d.dir) = pySplitComma dataDir
        ∧ ds.length = (pySplitComma dataDir).length) := by
  constructor
  · intro h
    simp [prepareDataset, h]
  · intro h
    have hlt : ¬ (pySplitComma dataDir).length < 2 := by omega
    refine ⟨(pySplitComma dataDir).map (loadTokenPrefixDataset env), ?_, ?_, by simp⟩
    · simp [prepareDataset, hlt]
    · have hcomp : ((fun d : TokenPrefixDataset => d.dir) ∘ loadTokenPrefixDataset env)
          = id := funext fun x => rfl
      rw [List.map_map, hcomp, List.map_id]

/-- C4 witness: one directory errors out; two directories load two members. -/
theorem c4_witness :
    prepareDataset (fun _ => 7) true "a"
      = .error ("--merge_datasets was enabled, but less than 2 directories were specified.\n"
        ++ "You can specify more than one data directory by comma seperating the --data_dir input.") :=
  (c4_merge_validation (fun _ => 7) "a").1 (by decide)

/-- C5: `total_steps` is exactly the dataset length times the epoch count, for
every dataset (single or merged) and every epoch count; it is derived from
those two operands on every invocation and changes whenever either operand
changes. -/
theorem c5_total_steps (env : String → Nat) (dataDir : String) (epochs : Nat) :
    totalSteps env false dataDir epochs = .ok (env dataDir * epochs)
    ∧ (2 ≤ (pySplitComma dataDir).length →
        totalSteps env true dataDir epochs
          = .ok (((pySplitComma dataDir).map env).sum * epochs))
    ∧ (∀ (b : Bool) (d : Dataset), prepareDataset env b dataDir = .ok d →
        totalSteps env b dataDir epochs = .ok (d.length * epochs))
    ∧ (∀ L L' E : Nat, L ≠ L' → 0 < E → L * E ≠ L' * E)
    ∧ (∀ L E E' : Nat, 0 < L → E ≠ E' → L * E ≠ L * E') := by
  refine ⟨rfl, fun h => ?_, fun b d hd => ?_, fun L L' E hL hE h => ?_, fun L E E' hL hE h => ?_⟩
  · have hlt : ¬ (pySplitComma dataDir).length < 2 := by omega
    have hcomp : ((fun d : TokenPrefixDataset => d.size) ∘ loadTokenPrefixDataset env)
        = env := funext fun x => rfl
    simp [totalSteps, prepareDataset, hlt, exceptBind_ok, exceptMap_ok, exceptPure,
      Dataset.length, MultiplePrefixDataset.length, List.map_map, hcomp]
  · simp [totalSteps, hd, exceptBind_ok, exceptMap_ok, exceptPure]
  · exact hL (Nat.eq_of_mul_eq_mul_right hE h)
  · exact hE (Nat.eq_of_mul_eq_mul_left hL h)

/-- C5 witness: two merged directories of 100 items each over 3 epochs give
`total_steps = 600`. -/
theorem c5_witness : totalSteps (fun _ => 100) true "a,b" 3 = .ok 600 :=
  ((c5_total_steps (fun _ => 100) "a,b" 3).2.1 (by decide)).trans rfl

/-- C6: after the fit loop of a completed run, `save_final_checkpoint` is
invoked exactly once and writes the fixed `{prefix}_final.ckpt` name, whatever
the cadences and however many epochs and steps ran: the run trace contains the
final artifact exactly once, as its last write. -/
theorem c6_final_checkpoint (path stem : String) (ne : Int) (ns : Option Int)
    (hne : ne ≠ 0) (hns : ns = none ∨ ∃ k, ns = some k ∧ k ≠ 0) :
    ∀ epochs spe : Nat,
      ∃ ws, (CheckpointSaver.mk path stem ne ns).runWrites epochs spe = .ok ws
        ∧ ws.count ((CheckpointSaver.mk path stem ne ns).finalCkptName) = 1
        ∧ ws.getLast? = some ((CheckpointSaver.mk path stem ne ns).saveFinalCheckpoint) := by
  intro epochs spe
  obtain ⟨ws, hws, hall⟩ :=
    fitWritesAux_ok (CheckpointSaver.mk path stem ne ns) hne hns spe (List.range epochs)
  refine ⟨ws ++ [(CheckpointSaver.mk path stem ne ns).saveFinalCheckpoint], ?_, ?_, ?_⟩
  · simp [CheckpointSaver.runWrites, CheckpointSaver.fitWrites, hws, exceptBind_ok,
      exceptPure]
  · rw [List.count_append]
    have h0 : ws.count ((CheckpointSaver.mk path stem ne ns).finalCkptName) = 0 :=
      List.count_eq_zero.mpr fun hmem => hall _ hmem rfl
    simp [h0, CheckpointSaver.saveFinalCheckpoint]
  · exact List.getLast?_concat ws

/-- C6 witness: a 3-epoch, 2-steps-per-epoch run with epoch cadence 1 and no
step cadence has exactly one final artifact, written last. -/
theorem c6_witness :
    ∃ ws, (CheckpointSaver.mk "out" "model" 1 none).runWrites 3 2 = .ok ws
      ∧ ws.count ((CheckpointSaver.mk "out" "model" 1 none).finalCkptName) = 1
      ∧ ws.getLast? = some ((CheckpointSaver.mk "out" "model" 1 none).saveFinalCheckpoint) :=
  c6_final_checkpoint "out" "model" 1 none (by decide) (Or.inl rfl) 3 2

/-- C7: spec-modelled composite dataset: for two or more members the composite
length is the sum of the member lengths, every in-range global index resolves
to exactly one owning member and local offset determined by the
cumulative-length boundaries, and in particular for member lengths
`[100, 50]` the length is `150` and index `120` resolves to member `1`,
offset `20`. -/
theorem c7_composite_resolution (ds : List TokenPrefixDataset) (_hds : 2 ≤ ds.length) :
    (MultiplePrefixDataset.mk ds).length = (ds.map fun m => m.size).sum
    ∧ (∀ i, i < (MultiplePrefixDataset.mk ds).length →
        ∃ m o, resolveIndex (ds.map fun m => m.size) i = some (m, o)
          ∧ m < ds.length
          ∧ o < (ds.map fun m => m.size).getD m 0
          ∧ ((ds.map fun m => m.size).take m).sum + o = i
          ∧ ∀ m' o', o' < (ds.map fun m => m.size).getD m' 0 →
              ((ds.map fun m => m.size).take m').sum + o' = i → m' = m ∧ o' = o)
    ∧ resolveIndex [100, 50] 120 = some (1, 20)
    ∧ ([100, 50] : List Nat).sum = 150 := by
  refine ⟨rfl, fun i hi => ?_, by decide, by decide⟩
  have hi' : i < (ds.map fun m => m.size).sum := hi
  obtain ⟨m, o, hres, hm, ho, hsum⟩ :=
    resolveIndex_spec (ds.map fun m => m.size) i hi'
  rw [List.length_map] at hm
  refine ⟨m, o, hres, hm, ho, hsum, fun m' o' ho' hsum' => ?_⟩
  obtain ⟨h1, h2⟩ := resolveIndex_unique (ds.map fun m => m.size) m' o' m o ho' ho
    (hsum'.trans hsum.symm)
  exact ⟨h1, h2⟩

/-- C7 witness: members of lengths 100 and 50; global index 120 lands at local
index 20 of the second member. -/
theorem c7_witness : resolveIndex [100, 50] 120 = some (1, 20) :=
  (c7_composite_resolution [⟨"a", 100⟩, ⟨"b", 50⟩] (by decide)).2.2.1

/-- C8: the `CheckpointSaver` constructor stores any integer cadences without
validation; with cadences at least 1 both handlers are total (they always
return normally), while a zero cadence makes the corresponding handler's
modulo-by-zero raise on its first (and every) invocation. -/
theorem c8_cadence_totality (path stem : String) (ne : Int) (ns : Option Int) :
    ((CheckpointSaver.mk path stem ne ns).saveEveryNEpochs = ne
      ∧ (CheckpointSaver.mk path stem ne ns).saveEveryNSteps = ns)
    ∧ (1 ≤ ne → ∀ E : Nat, ∃ r, (CheckpointSaver.mk path stem ne ns).onEpochEnd E = .ok r)
    ∧ (∀ k : Int, ns = some k → 1 ≤ k → ∀ S : Nat,
        ∃ r, (CheckpointSaver.mk path stem ne ns).onBatchEnd S = .ok r)
    ∧ (ne = 0 → ∀ E : Nat, (CheckpointSaver.mk path stem ne ns).onEpochEnd E = .error ())
    ∧ (∀ k : Int, ns = some k → k = 0 → ∀ S : Nat,
        (CheckpointSaver.mk path stem ne ns).onBatchEnd S = .error ()) := by
  refine ⟨⟨rfl, rfl⟩, fun h E => ?_, fun k hk h S => ?_, fun h E => ?_, fun k hk h S => ?_⟩
  · exact ⟨_, onEpochEnd_ok _ (show ne ≠ 0 by omega) E⟩
  · exact ⟨_, onBatchEnd_some _ k (show ns = some k by rw [hk]) (show k ≠ 0 by omega) S⟩
  · simp [CheckpointSaver.onEpochEnd, h]
  · simp [CheckpointSaver.onBatchEnd, hk, h]

/-- C8 witness: a zero epoch cadence is accepted by the constructor and makes
the epoch-end handler raise on its first invocation. -/
theorem c8_witness :
    (CheckpointSaver.mk "out" "model" 0 (some 0)).onEpochEnd 0 = .error () :=
  (c8_cadence_totality "out" "model" 0 (some 0)).2.2.2.1 rfl 0

/-- C9: since `0 mod k == 0` for every positive `k`, the very first epoch-end
event (epoch 0) always writes `{prefix}_epoch_0.ckpt` for every positive epoch
cadence, and a batch-end event at global step 0 always writes the latest
snapshot whenever a positive step cadence is set, however large the cadences. -/
theorem c9_start_boundary (path stem : String) (ne : Int) (ns : Option Int)
    (hne : 0 < ne) :
    (CheckpointSaver.mk path stem ne ns).onEpochEnd 0
      = .ok (some ((CheckpointSaver.mk path stem ne ns).epochCkptName 0))
    ∧ (∀ k : Int, ns = some k → 0 < k →
        (CheckpointSaver.mk path stem ne ns).onBatchEnd 0
          = .ok (some ((CheckpointSaver.mk path stem ne ns).latestCkptName))) := by
  constructor
  · rw [onEpochEnd_ok _ (show ne ≠ 0 by omega) 0]
    simp
  · intro k hk h
    rw [onBatchEnd_some _ k (show ns = some k by rw [hk]) (show k ≠ 0 by omega) 0]
    simp

/-- C9 witness: epoch cadence 7, step cadence 9: both handlers still write at
the zero boundary. -/
theorem c9_witness :
    (CheckpointSaver.mk "out" "model" 7 (some 9)).onEpochEnd 0
      = .ok (some "out/model_epoch_0.ckpt") :=
  ((c9_start_boundary "out" "model" 7 (some 9) (by decide)).1).trans rfl

/-- C10: the orchestrator's dataloader is built with `batch_size=1` and
`shuffle=False`, so the engine consumes exactly one item per batch in ascending
index order, which for a merged dataset is the members' construction order and
each member's local order; the orchestration layer introduces no shuffling. -/
theorem c10_sequential_consumption :
    trainDataLoaderConfig.batchSize = 1
    ∧ trainDataLoaderConfig.shuffle = false
    ∧ (∀ n : Nat, loaderBatches trainDataLoaderConfig n
        = some ((List.range n).map fun i => [i]))
    ∧ (∀ Ls : List Nat,
        (List.range Ls.sum).map (resolveIndex Ls) = (memberOrder Ls).map some) := by
  refine ⟨rfl, rfl, fun n => ?_, map_resolveIndex_range⟩
  simp [loaderBatches, loaderIndexOrder, trainDataLoaderConfig, chunkList_one]

end CLIPTrain
